import Mathlib

/-!
# Verification of the etcd-backup-restore garbage collector

Shallow embedding of `pkg/snapshot/snapshotter/garbagecollector.go`.

Time is modelled as an integer number of seconds since Go's zero time
(midnight UTC, January 1, year 1).  In Go's time model (UTC, no leap
seconds) every day has exactly 86400 seconds and the zero time is
midnight-aligned, so `t.Truncate(time.Hour)` is `t - t % 3600` and
`t.Truncate(24*time.Hour)` is `t - t % 86400`, and
`time.Date(now.Year(), now.Month(), now.Day()+k, h, 0, 0, 0, UTC)` is
`truncDay now + k*86400 + h*3600` (Go normalises out-of-range day
components by exact day arithmetic).  Go's `int(float64)` conversion and
`int` division both truncate toward zero, which is `Int.tdiv` here; the
durations involved are hour-multiples far below any float53 or int64
precision limit, so the arithmetic is exact.

The store is modelled by the list it returned and by a success predicate
`delOk` telling which `Delete` calls succeed during the tick.  A tick
returns the ordered list of `Delete` calls it issued (`calls`, including
failed attempts) together with the per-stream-head keep/delete decisions
it reached (`decisions`); a call `s` succeeds iff `delOk s = true`.
-/

/-- Snapshot kind, `snapstore.SnapshotKindFull` / delta. -/
inductive SnapKind where
  | full
  | delta
deriving DecidableEq, Repr

/-- One snapshot record: kind, creation time (seconds, UTC), and an
identity stand-in for `(SnapDir, SnapName)`. -/
structure Snapshot where
  kind : SnapKind
  createdOn : Int
  name : Nat
deriving DecidableEq, Repr

instance : Inhabited Snapshot := ⟨⟨SnapKind.full, 0, 0⟩⟩

/-- `t.Truncate(time.Hour)` in Go (rounding down since the zero time). -/
def truncHour (t : Int) : Int := t - t % 3600

/-- `t.Truncate(24 * time.Hour)` in Go: midnight UTC of `t`'s date. -/
def truncDay (t : Int) : Int := t - t % 86400

/-- The `backupMode` string variable of the exponential walk. -/
inductive GCMode where
  | current   -- the Go code's "None"
  | hour
  | day
  | week
  | month
deriving DecidableEq, Repr

/-- The `for backupCount >= 0` loop of the `"Hour"` case.  Fuel `n+1`
encodes `backupCount = n`; fuel `0` means the loop guard failed.
`some (d, m, c)` is a `break` out of the loop with `deleteSnap = d`,
`backupMode = m`, `backupCount = c`; `none` means the loop exhausted
(falling through to the `"Day"` case). -/
def hourLoop (now snapT : Int) : Nat → Option (Bool × GCMode × Int)
  | 0 => none
  | n + 1 =>
    let rounded := truncDay now + (n : Int) * 3600
    let diff := rounded - truncHour snapT
    if diff = 0 then
      if n = 0 then some (false, GCMode.day, 6)
      else some (false, GCMode.hour, (n : Int) - 1)
    else if 0 < diff then hourLoop now snapT n
    else some (true, GCMode.hour, (n : Int))

/-- The inner loop of the `"Day"` case; anchor
`time.Date(Y, M, D-7+count, 0, 0, 0, 0, UTC)`. -/
def dayLoop (now snapT : Int) : Nat → Option (Bool × GCMode × Int)
  | 0 => none
  | n + 1 =>
    let rounded := truncDay now + ((n : Int) - 7) * 86400
    let diff := rounded - truncDay snapT
    if diff = 0 then
      if n = 0 then some (false, GCMode.week, 3)
      else some (false, GCMode.day, (n : Int) - 1)
    else if 0 < diff then dayLoop now snapT n
    else some (true, GCMode.day, (n : Int))

/-- The inner loop of the `"Week"` case; anchor
`time.Date(Y, M, D-7-7*(4-count), 0, 0, 0, 0, UTC)`, and
`diff = int(rounded.Sub(snap.CreatedOn.Truncate(Hour)).Hours()/24) / 7`
with both divisions truncating toward zero. -/
def weekLoop (now snapT : Int) : Nat → Option (Bool × GCMode × Int)
  | 0 => none
  | n + 1 =>
    let rounded := truncDay now - (7 + 7 * (4 - (n : Int))) * 86400
    let hdiff := (rounded - truncHour snapT).tdiv 3600
    let diff := (hdiff.tdiv 24).tdiv 7
    if diff = 0 then
      if n = 0 then some (false, GCMode.month, -1)
      else some (false, GCMode.week, (n : Int) - 1)
    else if 0 < diff then weekLoop now snapT n
    else some (true, GCMode.week, (n : Int))

/-- The `"Month"` case: `deleteSnap = true`, state unchanged. -/
def caseMonth (count : Int) : Bool × GCMode × Int :=
  (true, GCMode.month, count)

/-- The `"Week"` case, including what follows its inner loop: on loop
exhaustion the mode becomes `"Month"` and falls through, setting
`deleteSnap = true`. -/
def caseWeek (now snapT : Int) (count : Int) : Bool × GCMode × Int :=
  match weekLoop now snapT (count + 1).toNat with
  | some r => r
  | none => (true, GCMode.month, if 0 ≤ count then -1 else count)

/-- The `"Day"` case; on exhaustion fall through to `"Week"` with
`backupCount = weekModeLimit - 1 = 3`. -/
def caseDay (now snapT : Int) (count : Int) : Bool × GCMode × Int :=
  match dayLoop now snapT (count + 1).toNat with
  | some r => r
  | none => caseWeek now snapT 3

/-- The `"Hour"` case; on exhaustion fall through to `"Day"` with
`backupCount = dayModeLimit - 1 = 6`. -/
def caseHour (now snapT : Int) (count : Int) : Bool × GCMode × Int :=
  match hourLoop now snapT (count + 1).toNat with
  | some r => r
  | none => caseDay now snapT 6

/-- The `"None"` case: keep everything in the current hour; on the first
older snapshot switch to `"Hour"` with `backupCount = 23` and fall
through. -/
def caseCurrent (now snapT : Int) (count : Int) : Bool × GCMode × Int :=
  if truncHour now = truncHour snapT then (false, GCMode.current, count)
  else caseHour now snapT 23

/-- One iteration of the exponential policy's `switch backupMode` block
for the stream head created at `snapT`: from state `(mode, count)` it
yields `(deleteSnap, mode', count')`.  (`deleteSnap` is reassigned on
every path before it is consulted, so the incoming value is not a
parameter.) -/
def gcStep (now snapT : Int) (mode : GCMode) (count : Int) : Bool × GCMode × Int :=
  match mode with
  | GCMode.current => caseCurrent now snapT count
  | GCMode.hour => caseHour now snapT count
  | GCMode.day => caseDay now snapT count
  | GCMode.week => caseWeek now snapT count
  | GCMode.month => caseMonth count

/-- The stream partitioner: `snapStreamIndexList` starts with `0`
(appended unconditionally) followed by every index `i ≥ 1` whose
snapshot is a full. -/
def snapStreamIndexList (l : List Snapshot) : List Nat :=
  0 :: (List.range l.length).filter fun i =>
    decide (1 ≤ i) &&
      match l[i]? with
      | some s => s.kind == SnapKind.full
      | none => false

/-- The Go slice `snapList[idxs[j] : idxs[j+1]]`. -/
def streamAt (l : List Snapshot) (idxs : List Nat) (j : Nat) : List Snapshot :=
  (l.take (idxs.getD (j + 1) 0)).drop (idxs.getD j 0)

/-- The stream head `snapList[idxs[j]]`. -/
def headAt (l : List Snapshot) (idxs : List Nat) (j : Nat) : Snapshot :=
  l.getD (idxs.getD j 0) default

/-- Issue `Delete` calls for the given snapshots in order, stopping after
the first failure.  Returns the calls issued (the failed one included)
and whether all succeeded. -/
def sweepAux (delOk : Snapshot → Bool) : List Snapshot → List Snapshot × Bool
  | [] => ([], true)
  | s :: rest =>
    if delOk s then
      let r := sweepAux delOk rest
      (s :: r.1, r.2)
    else ([s], false)

/-- `garbageCollectDeltaSnapshots`: delete the stream's snapshots from
index `len-1` down to `1` (never index 0), stopping at the first failed
delete, which is the returned error. -/
def garbageCollectDeltaSnapshots (delOk : Snapshot → Bool)
    (snapStream : List Snapshot) : List Snapshot × Bool :=
  sweepAux delOk (snapStream.drop 1).reverse

/-- The exponential walk over stream indices `js` (the Go loop runs
`js = [len-2, ..., 0]`), threading `(mode, count)`.  Returns the `Delete`
calls issued and the `(head, deleteSnap)` decision of every iteration
whose delta sweep succeeded.  A failed sweep issues its partial sweep
calls, leaves the state untouched and `continue`s. -/
def expGoAux (now : Int) (delOk : Snapshot → Bool) (l : List Snapshot)
    (idxs : List Nat) :
    List Nat → GCMode → Int → List Snapshot × List (Snapshot × Bool)
  | [], _, _ => ([], [])
  | j :: js, mode, count =>
    let sw := garbageCollectDeltaSnapshots delOk (streamAt l idxs j)
    if sw.2 then
      let snap := headAt l idxs j
      let r := gcStep now snap.createdOn mode count
      let rest := expGoAux now delOk l idxs js r.2.1 r.2.2
      (sw.1 ++ (if r.1 then [snap] else []) ++ rest.1, (snap, r.1) :: rest.2)
    else
      let rest := expGoAux now delOk l idxs js mode count
      (sw.1 ++ rest.1, rest.2)

/-- One `GarbageCollectionPolicyExponential` tick body on a successfully
listed snapshot list. -/
def gcExponentialTick (now : Int) (delOk : Snapshot → Bool)
    (l : List Snapshot) : List Snapshot × List (Snapshot × Bool) :=
  let idxs := snapStreamIndexList l
  expGoAux now delOk l idxs ((List.range (idxs.length - 1)).reverse)
    GCMode.current (-1)

/-- The limit-based walk over ascending stream indices `js`
(`js = [0, ..., len-2]`); a head is deleted when
`snapStreamIndex < len(snapStreamIndexList) - maxBackups` (Go `int`
arithmetic). -/
def lbGoAux (delOk : Snapshot → Bool) (l : List Snapshot) (idxs : List Nat)
    (maxBackups : Int) :
    List Nat → List Snapshot × List (Snapshot × Bool)
  | [] => ([], [])
  | j :: js =>
    let sw := garbageCollectDeltaSnapshots delOk (streamAt l idxs j)
    if sw.2 then
      let snap := headAt l idxs j
      let doDel := decide ((j : Int) < (idxs.length : Int) - maxBackups)
      let rest := lbGoAux delOk l idxs maxBackups js
      (sw.1 ++ (if doDel then [snap] else []) ++ rest.1, (snap, doDel) :: rest.2)
    else
      let rest := lbGoAux delOk l idxs maxBackups js
      (sw.1 ++ rest.1, rest.2)

/-- One `GarbageCollectionPolicyLimitBased` tick body on a successfully
listed snapshot list. -/
def gcLimitBasedTick (delOk : Snapshot → Bool) (maxBackups : Int)
    (l : List Snapshot) : List Snapshot × List (Snapshot × Bool) :=
  let idxs := snapStreamIndexList l
  lbGoAux delOk l idxs maxBackups (List.range (idxs.length - 1))

/-- The configured retention policy. -/
inductive GCPolicy where
  | exponential
  | limitBased
deriving DecidableEq, Repr

/-- One full tick: `store.List()` either fails (`none`) — one warning is
logged, nothing else happens — or returns a list which is partitioned
and garbage-collected.  Returns the `Delete` calls issued and the number
of warnings logged (each failed `Delete` logs exactly one `Warnf`). -/
def gcTick (policy : GCPolicy) (now : Int) (maxBackups : Int)
    (delOk : Snapshot → Bool) (listResult : Option (List Snapshot)) :
    List Snapshot × Nat :=
  match listResult with
  | none => ([], 1)
  | some l =>
    let calls :=
      match policy with
      | GCPolicy.exponential => (gcExponentialTick now delOk l).1
      | GCPolicy.limitBased => (gcLimitBasedTick delOk maxBackups l).1
    (calls, (calls.filter fun s => !delOk s).length)

/-! ## Helper lemmas: the inner carry loops -/

theorem truncHour_lt_truncDay_add (t now : Int) (h : truncDay t < truncDay now) :
    truncHour t < truncDay now := by
  unfold truncHour truncDay at *
  omega

theorem hourLoop_none_of_lt (now t : Int) (h : truncHour t < truncDay now) :
    ∀ f, hourLoop now t f = none := by
  intro f
  induction f with
  | zero => rfl
  | succ n ih =>
    have hpos : 0 < truncDay now + (n : Int) * 3600 - truncHour t := by omega
    simp only [hourLoop]
    rw [if_neg (by omega), if_pos (by omega), ih]

theorem hourLoop_keep (now t : Int) (c : Nat)
    (h : truncHour t = truncDay now + (c : Int) * 3600) :
    ∀ f, c < f →
      hourLoop now t f =
        some (if c = 0 then (false, GCMode.day, 6)
              else (false, GCMode.hour, (c : Int) - 1)) := by
  intro f
  induction f with
  | zero => omega
  | succ n ih =>
    intro hcf
    rcases Nat.lt_or_ge c n with hlt | hge
    · have hgt : 0 < truncDay now + (n : Int) * 3600 - truncHour t := by
        have : (c : Int) < (n : Int) := by exact_mod_cast hlt
        omega
      simp only [hourLoop]
      rw [if_neg (by omega), if_pos (by omega), ih hlt]
    · have hcn : c = n := by omega
      subst hcn
      simp only [hourLoop]
      rw [if_pos (by omega)]
      by_cases hc : c = 0 <;> simp [hc]

theorem hourLoop_delete (now t : Int) (n : Nat)
    (h : truncDay now + (n : Int) * 3600 < truncHour t) :
    hourLoop now t (n + 1) = some (true, GCMode.hour, (n : Int)) := by
  simp only [hourLoop]
  rw [if_neg (by omega), if_neg (by omega)]

theorem dayLoop_none_of_lt (now t : Int) (h : truncDay t < truncDay now - 7 * 86400) :
    ∀ f, dayLoop now t f = none := by
  intro f
  induction f with
  | zero => rfl
  | succ n ih =>
    have hgt : 0 < truncDay now + ((n : Int) - 7) * 86400 - truncDay t := by
      omega
    simp only [dayLoop]
    rw [if_neg (by omega), if_pos (by omega), ih]

theorem dayLoop_keep (now t : Int) (c : Nat)
    (h : truncDay t = truncDay now + ((c : Int) - 7) * 86400) :
    ∀ f, c < f →
      dayLoop now t f =
        some (if c = 0 then (false, GCMode.week, 3)
              else (false, GCMode.day, (c : Int) - 1)) := by
  intro f
  induction f with
  | zero => omega
  | succ n ih =>
    intro hcf
    rcases Nat.lt_or_ge c n with hlt | hge
    · have hcn : (c : Int) < (n : Int) := by exact_mod_cast hlt
      have hgt : 0 < truncDay now + ((n : Int) - 7) * 86400 - truncDay t := by
        rw [h]; omega
      simp only [dayLoop]
      rw [if_neg (by omega), if_pos (by omega), ih hlt]
    · have hcn : c = n := by omega
      subst hcn
      simp only [dayLoop]
      rw [if_pos (by omega)]
      by_cases hc : c = 0 <;> simp [hc]

theorem dayLoop_delete (now t : Int) (n : Nat)
    (h : truncDay now + ((n : Int) - 7) * 86400 < truncDay t) :
    dayLoop now t (n + 1) = some (true, GCMode.day, (n : Int)) := by
  simp only [dayLoop]
  rw [if_neg (by omega), if_neg (by omega)]

theorem truncDay_eq_of_truncHour_eq (now t : Int) (h : truncHour t = truncDay now) :
    truncDay t = truncDay now := by
  unfold truncHour truncDay at *
  omega

theorem weekLoop_delete_boundary (now t : Int)
    (h : truncDay t = truncDay now - 7 * 86400) :
    weekLoop now t 4 = some (true, GCMode.week, 3) := by
  have hk0 : (0 : Int) ≤ t % 86400 / 3600 := by omega
  have hk23 : t % 86400 / 3600 ≤ 23 := by omega
  have hke : truncHour t = truncDay t + 3600 * (t % 86400 / 3600) := by
    unfold truncHour truncDay
    omega
  set k : Int := t % 86400 / 3600 with hkdef
  have hnum : truncDay now - (7 + 7 * (4 - (3 : Int))) * 86400 - truncHour t
      = -(3600 * (168 + k)) := by
    rw [hke, h]; ring
  have h1 : (truncDay now - (7 + 7 * (4 - (3 : Int))) * 86400 - truncHour t).tdiv 3600
      = -(168 + k) := by
    rw [hnum, Int.neg_tdiv, Int.mul_tdiv_cancel_left _ (by norm_num)]
  have h2 : (-(168 + k)).tdiv 24 = -7 := by
    rw [Int.neg_tdiv, Int.tdiv_eq_ediv (by omega) (by omega)]
    omega
  have h3 : ((-7 : Int)).tdiv 7 = -1 := by decide
  show weekLoop now t (3 + 1) = some (true, GCMode.week, 3)
  simp only [weekLoop]
  rw [show ((3 : Nat) : Int) = (3 : Int) from rfl, h1, h2, h3]
  norm_num

theorem caseWeek_delete_boundary (now t : Int)
    (h : truncDay t = truncDay now - 7 * 86400) :
    caseWeek now t 3 = (true, GCMode.week, 3) := by
  unfold caseWeek
  rw [show ((3 : Int) + 1).toNat = 4 from rfl, weekLoop_delete_boundary now t h]

theorem gcStep_hour_keep (now t : Int) (c cc : Nat) (hcc : c ≤ cc)
    (h : truncHour t = truncDay now + (c : Int) * 3600) :
    gcStep now t GCMode.hour (cc : Int) =
      (if c = 0 then (false, GCMode.day, 6)
       else (false, GCMode.hour, (c : Int) - 1)) := by
  unfold gcStep caseHour
  rw [show ((cc : Int) + 1).toNat = cc + 1 by omega,
    hourLoop_keep now t c h (cc + 1) (by omega)]

theorem gcStep_day_keep (now t : Int) (c cc : Nat) (hcc : c ≤ cc)
    (h : truncDay t = truncDay now + ((c : Int) - 7) * 86400) :
    gcStep now t GCMode.day (cc : Int) =
      (if c = 0 then (false, GCMode.week, 3)
       else (false, GCMode.day, (c : Int) - 1)) := by
  unfold gcStep caseDay
  rw [show ((cc : Int) + 1).toNat = cc + 1 by omega,
    dayLoop_keep now t c h (cc + 1) (by omega)]

theorem gcStep_hour_bucket_claimed (now t : Int) (c : Nat) (hc : 1 ≤ c)
    (h : truncHour t = truncDay now + (c : Int) * 3600) :
    gcStep now t GCMode.hour ((c : Int) - 1) = (true, GCMode.hour, (c : Int) - 1) := by
  obtain ⟨d, rfl⟩ : ∃ d, c = d + 1 := ⟨c - 1, by omega⟩
  have hcast : ((d + 1 : Nat) : Int) - 1 = (d : Int) := by push_cast; omega
  unfold gcStep caseHour
  rw [hcast, show ((d : Int) + 1).toNat = d + 1 by omega,
    hourLoop_delete now t d (by rw [h]; push_cast; omega)]

theorem gcStep_hour_bucket_zero_claimed (now t : Int)
    (h : truncHour t = truncDay now) :
    gcStep now t GCMode.day 6 = (true, GCMode.day, 6) := by
  have hd : truncDay t = truncDay now := truncDay_eq_of_truncHour_eq now t h
  unfold gcStep caseDay
  rw [show ((6 : Int) + 1).toNat = 6 + 1 from rfl,
    dayLoop_delete now t 6 (by rw [hd]; norm_num)]
  rfl

theorem gcStep_day_bucket_claimed (now t : Int) (c : Nat) (hc : 1 ≤ c)
    (h : truncDay t = truncDay now + ((c : Int) - 7) * 86400) :
    gcStep now t GCMode.day ((c : Int) - 1) = (true, GCMode.day, (c : Int) - 1) := by
  obtain ⟨d, rfl⟩ : ∃ d, c = d + 1 := ⟨c - 1, by omega⟩
  have hcast : ((d + 1 : Nat) : Int) - 1 = (d : Int) := by push_cast; omega
  unfold gcStep caseDay
  rw [hcast, show ((d : Int) + 1).toNat = d + 1 by omega,
    dayLoop_delete now t d (by rw [h]; push_cast; omega)]

theorem gcStep_day_bucket_zero_claimed (now t : Int)
    (h : truncDay t = truncDay now - 7 * 86400) :
    gcStep now t GCMode.week 3 = (true, GCMode.week, 3) := by
  unfold gcStep
  exact caseWeek_delete_boundary now t h

theorem gcStep_hour_prev_date (now t : Int) (cc : Int)
    (h : truncDay t < truncDay now) :
    gcStep now t GCMode.hour cc = caseDay now t 6 := by
  unfold gcStep caseHour
  rw [hourLoop_none_of_lt now t (truncHour_lt_truncDay_add t now h) _]

/-! ## The keep-slot potential of a walk state -/

/-- Number of further heads a walk state can still keep outside the
current hour: at most 24 hour slots, 7 day slots and 4 week slots. -/
def phi : GCMode → Int → Nat
  | GCMode.current, _ => 35
  | GCMode.hour, c => (c + 1).toNat + 11
  | GCMode.day, c => (c + 1).toNat + 4
  | GCMode.week, c => (c + 1).toNat
  | GCMode.month, _ => 0

theorem hourLoop_phi (now t : Int) :
    ∀ f r, hourLoop now t f = some r →
      phi r.2.1 r.2.2 + (if r.1 then 0 else 1) ≤ f + 11 := by
  intro f
  induction f with
  | zero => intro r h; simp [hourLoop] at h
  | succ n ih =>
    intro r h
    simp only [hourLoop] at h
    split_ifs at h with h0 hn hp
    · obtain rfl := Option.some_inj.mp h.symm
      simp [phi]
    · obtain rfl := Option.some_inj.mp h.symm
      simp only [phi]
      have : (((n : Int) - 1) + 1).toNat = n := by omega
      rw [this]
      simp
    · exact le_trans (ih r h) (by omega)
    · obtain rfl := Option.some_inj.mp h.symm
      simp only [phi]
      have : (((n : Int)) + 1).toNat = n + 1 := by omega
      rw [this]
      simp

theorem dayLoop_phi (now t : Int) :
    ∀ f r, dayLoop now t f = some r →
      phi r.2.1 r.2.2 + (if r.1 then 0 else 1) ≤ f + 4 := by
  intro f
  induction f with
  | zero => intro r h; simp [dayLoop] at h
  | succ n ih =>
    intro r h
    simp only [dayLoop] at h
    split_ifs at h with h0 hn hp
    · obtain rfl := Option.some_inj.mp h.symm
      simp [phi]
    · obtain rfl := Option.some_inj.mp h.symm
      simp only [phi]
      have : (((n : Int) - 1) + 1).toNat = n := by omega
      rw [this]
      simp
    · exact le_trans (ih r h) (by omega)
    · obtain rfl := Option.some_inj.mp h.symm
      simp only [phi]
      have : (((n : Int)) + 1).toNat = n + 1 := by omega
      rw [this]
      simp

theorem weekLoop_phi (now t : Int) :
    ∀ f r, weekLoop now t f = some r →
      phi r.2.1 r.2.2 + (if r.1 then 0 else 1) ≤ f := by
  intro f
  induction f with
  | zero => intro r h; simp [weekLoop] at h
  | succ n ih =>
    intro r h
    simp only [weekLoop] at h
    split_ifs at h with h0 hn hp
    · obtain rfl := Option.some_inj.mp h.symm
      simp [phi]
    · obtain rfl := Option.some_inj.mp h.symm
      simp only [phi]
      have : (((n : Int) - 1) + 1).toNat = n := by omega
      rw [this]
      simp
    · exact le_trans (ih r h) (by omega)
    · obtain rfl := Option.some_inj.mp h.symm
      simp only [phi]
      have : (((n : Int)) + 1).toNat = n + 1 := by omega
      rw [this]
      simp

theorem caseWeek_phi (now t : Int) (c : Int) :
    phi (caseWeek now t c).2.1 (caseWeek now t c).2.2 +
      (if (caseWeek now t c).1 then 0 else 1) ≤ phi GCMode.week c := by
  unfold caseWeek
  cases hw : weekLoop now t (c + 1).toNat with
  | some r => simpa [phi] using weekLoop_phi now t _ r hw
  | none => simp [phi]

theorem caseDay_phi (now t : Int) (c : Int) :
    phi (caseDay now t c).2.1 (caseDay now t c).2.2 +
      (if (caseDay now t c).1 then 0 else 1) ≤ phi GCMode.day c := by
  unfold caseDay
  cases hw : dayLoop now t (c + 1).toNat with
  | some r => simpa [phi] using dayLoop_phi now t _ r hw
  | none =>
    have h3 := caseWeek_phi now t 3
    simp only [phi] at h3 ⊢
    omega

theorem caseHour_phi (now t : Int) (c : Int) :
    phi (caseHour now t c).2.1 (caseHour now t c).2.2 +
      (if (caseHour now t c).1 then 0 else 1) ≤ phi GCMode.hour c := by
  unfold caseHour
  cases hw : hourLoop now t (c + 1).toNat with
  | some r => simpa [phi] using hourLoop_phi now t _ r hw
  | none =>
    have h6 := caseDay_phi now t 6
    simp only [phi] at h6 ⊢
    omega

theorem gcStep_current_keep (now t : Int) (count : Int)
    (h : truncHour now = truncHour t) :
    gcStep now t GCMode.current count = (false, GCMode.current, count) := by
  unfold gcStep caseCurrent
  rw [if_pos h]

theorem gcStep_phi (now t : Int) (mode : GCMode) (count : Int)
    (hnc : ¬(mode = GCMode.current ∧ truncHour now = truncHour t)) :
    phi (gcStep now t mode count).2.1 (gcStep now t mode count).2.2 +
      (if (gcStep now t mode count).1 then 0 else 1) ≤ phi mode count := by
  cases mode with
  | current =>
    have hne : ¬(truncHour now = truncHour t) := fun he => hnc ⟨rfl, he⟩
    have hg : gcStep now t GCMode.current count = caseHour now t 23 := by
      unfold gcStep caseCurrent
      rw [if_neg hne]
    rw [hg]
    have h23 := caseHour_phi now t 23
    simp only [phi] at h23 ⊢
    omega
  | hour => exact caseHour_phi now t count
  | day => exact caseDay_phi now t count
  | week => exact caseWeek_phi now t count
  | month => simp [gcStep, caseMonth, phi]

/-! ## The delta sweeper -/

theorem sweepAux_spec (delOk : Snapshot → Bool) :
    ∀ xs, sweepAux delOk xs =
      (xs.takeWhile delOk ++ (xs.dropWhile delOk).take 1, xs.all delOk) := by
  intro xs
  induction xs with
  | nil => simp [sweepAux]
  | cons s rest ih =>
    by_cases hs : delOk s = true
    · simp [sweepAux, hs, ih]
    · simp [sweepAux, hs, Bool.eq_false_iff.mpr hs]

theorem sweep_ok_all (delOk : Snapshot → Bool) (h : ∀ s, delOk s = true)
    (st : List Snapshot) : (garbageCollectDeltaSnapshots delOk st).2 = true := by
  simp [garbageCollectDeltaSnapshots, sweepAux_spec, List.all_eq_true, h]

/-! ## Unfolding the walks one stream at a time -/

theorem expGoAux_cons_ok (now : Int) (delOk : Snapshot → Bool)
    (l : List Snapshot) (idxs : List Nat) (j : Nat) (js : List Nat)
    (mode : GCMode) (count : Int)
    (hsw : (garbageCollectDeltaSnapshots delOk (streamAt l idxs j)).2 = true) :
    expGoAux now delOk l idxs (j :: js) mode count =
      ((garbageCollectDeltaSnapshots delOk (streamAt l idxs j)).1 ++
        (if (gcStep now (headAt l idxs j).createdOn mode count).1
          then [headAt l idxs j] else []) ++
        (expGoAux now delOk l idxs js
          (gcStep now (headAt l idxs j).createdOn mode count).2.1
          (gcStep now (headAt l idxs j).createdOn mode count).2.2).1,
       (headAt l idxs j, (gcStep now (headAt l idxs j).createdOn mode count).1) ::
        (expGoAux now delOk l idxs js
          (gcStep now (headAt l idxs j).createdOn mode count).2.1
          (gcStep now (headAt l idxs j).createdOn mode count).2.2).2) := by
  simp [expGoAux, hsw]

theorem expGoAux_cons_fail (now : Int) (delOk : Snapshot → Bool)
    (l : List Snapshot) (idxs : List Nat) (j : Nat) (js : List Nat)
    (mode : GCMode) (count : Int)
    (hsw : (garbageCollectDeltaSnapshots delOk (streamAt l idxs j)).2 = false) :
    expGoAux now delOk l idxs (j :: js) mode count =
      ((garbageCollectDeltaSnapshots delOk (streamAt l idxs j)).1 ++
        (expGoAux now delOk l idxs js mode count).1,
       (expGoAux now delOk l idxs js mode count).2) := by
  simp [expGoAux, hsw]

theorem lbGoAux_cons_ok (delOk : Snapshot → Bool)
    (l : List Snapshot) (idxs : List Nat) (maxBackups : Int) (j : Nat)
    (js : List Nat)
    (hsw : (garbageCollectDeltaSnapshots delOk (streamAt l idxs j)).2 = true) :
    lbGoAux delOk l idxs maxBackups (j :: js) =
      ((garbageCollectDeltaSnapshots delOk (streamAt l idxs j)).1 ++
        (if decide ((j : Int) < (idxs.length : Int) - maxBackups)
          then [headAt l idxs j] else []) ++
        (lbGoAux delOk l idxs maxBackups js).1,
       (headAt l idxs j, decide ((j : Int) < (idxs.length : Int) - maxBackups)) ::
        (lbGoAux delOk l idxs maxBackups js).2) := by
  simp [lbGoAux, hsw]

theorem lbGoAux_cons_fail (delOk : Snapshot → Bool)
    (l : List Snapshot) (idxs : List Nat) (maxBackups : Int) (j : Nat)
    (js : List Nat)
    (hsw : (garbageCollectDeltaSnapshots delOk (streamAt l idxs j)).2 = false) :
    lbGoAux delOk l idxs maxBackups (j :: js) =
      ((garbageCollectDeltaSnapshots delOk (streamAt l idxs j)).1 ++
        (lbGoAux delOk l idxs maxBackups js).1,
       (lbGoAux delOk l idxs maxBackups js).2) := by
  simp [lbGoAux, hsw]

/-! ## Counting kept heads in the exponential walk -/

theorem expGoAux_keep_bound (now : Int) (delOk : Snapshot → Bool)
    (l : List Snapshot) (idxs : List Nat) (hall : ∀ s, delOk s = true) :
    ∀ (js : List Nat) (mode : GCMode) (count : Int),
      ((expGoAux now delOk l idxs js mode count).2.filter
        (fun p => !p.2 && !(truncHour p.1.createdOn == truncHour now))).length
        ≤ phi mode count := by
  intro js
  induction js with
  | nil => intro mode count; simp [expGoAux]
  | cons j js ih =>
    intro mode count
    have hsw : (garbageCollectDeltaSnapshots delOk (streamAt l idxs j)).2 = true :=
      sweep_ok_all delOk hall _
    rw [expGoAux_cons_ok now delOk l idxs j js mode count hsw]
    by_cases hcur : mode = GCMode.current ∧
        truncHour now = truncHour (headAt l idxs j).createdOn
    · obtain ⟨rfl, heq⟩ := hcur
      rw [gcStep_current_keep now (headAt l idxs j).createdOn count heq]
      have hbeq : (truncHour (headAt l idxs j).createdOn == truncHour now) = true := by
        simp [heq.symm]
      simp only [List.filter_cons, hbeq]
      simp only [Bool.not_true, Bool.and_false, Bool.false_eq_true, if_false]
      exact ih GCMode.current count
    · have hphi := gcStep_phi now (headAt l idxs j).createdOn mode count hcur
      have hih := ih (gcStep now (headAt l idxs j).createdOn mode count).2.1
        (gcStep now (headAt l idxs j).createdOn mode count).2.2
      rw [List.filter_cons]
      split_ifs with hp
      · have hb : (gcStep now (headAt l idxs j).createdOn mode count).1 = false := by
          rcases hb2 : (gcStep now (headAt l idxs j).createdOn mode count).1 with _ | _
          · rfl
          · rw [hb2] at hp; simp at hp
        rw [hb] at hphi
        simp only [Bool.false_eq_true, if_false] at hphi
        simp only [List.length_cons]
        omega
      · omega

/-! ## Mode ordering -/

/-- Position of a mode in the walk order None, Hour, Day, Week, Month. -/
def modeRank : GCMode → Nat
  | GCMode.current => 0
  | GCMode.hour => 1
  | GCMode.day => 2
  | GCMode.week => 3
  | GCMode.month => 4

theorem hourLoop_mode (now t : Int) :
    ∀ f r, hourLoop now t f = some r →
      r.2.1 = GCMode.hour ∨ r.2.1 = GCMode.day := by
  intro f
  induction f with
  | zero => intro r h; simp [hourLoop] at h
  | succ n ih =>
    intro r h
    simp only [hourLoop] at h
    split_ifs at h with h0 hn hp
    · obtain rfl := Option.some_inj.mp h.symm; right; rfl
    · obtain rfl := Option.some_inj.mp h.symm; left; rfl
    · exact ih r h
    · obtain rfl := Option.some_inj.mp h.symm; left; rfl

theorem dayLoop_mode (now t : Int) :
    ∀ f r, dayLoop now t f = some r →
      r.2.1 = GCMode.day ∨ r.2.1 = GCMode.week := by
  intro f
  induction f with
  | zero => intro r h; simp [dayLoop] at h
  | succ n ih =>
    intro r h
    simp only [dayLoop] at h
    split_ifs at h with h0 hn hp
    · obtain rfl := Option.some_inj.mp h.symm; right; rfl
    · obtain rfl := Option.some_inj.mp h.symm; left; rfl
    · exact ih r h
    · obtain rfl := Option.some_inj.mp h.symm; left; rfl

theorem weekLoop_mode (now t : Int) :
    ∀ f r, weekLoop now t f = some r →
      r.2.1 = GCMode.week ∨ r.2.1 = GCMode.month := by
  intro f
  induction f with
  | zero => intro r h; simp [weekLoop] at h
  | succ n ih =>
    intro r h
    simp only [weekLoop] at h
    split_ifs at h with h0 hn hp
    · obtain rfl := Option.some_inj.mp h.symm; right; rfl
    · obtain rfl := Option.some_inj.mp h.symm; left; rfl
    · exact ih r h
    · obtain rfl := Option.some_inj.mp h.symm; left; rfl

theorem caseWeek_mode (now t : Int) (c : Int) :
    (caseWeek now t c).2.1 = GCMode.week ∨ (caseWeek now t c).2.1 = GCMode.month := by
  unfold caseWeek
  cases hw : weekLoop now t (c + 1).toNat with
  | some r => exact weekLoop_mode now t _ r hw
  | none => right; rfl

theorem caseDay_mode (now t : Int) (c : Int) :
    (caseDay now t c).2.1 = GCMode.day ∨ (caseDay now t c).2.1 = GCMode.week ∨
      (caseDay now t c).2.1 = GCMode.month := by
  unfold caseDay
  cases hw : dayLoop now t (c + 1).toNat with
  | some r =>
    rcases dayLoop_mode now t _ r hw with h | h
    · left; exact h
    · right; left; exact h
  | none =>
    rcases caseWeek_mode now t 3 with h | h
    · right; left; exact h
    · right; right; exact h

theorem caseHour_mode (now t : Int) (c : Int) :
    (caseHour now t c).2.1 = GCMode.hour ∨ (caseHour now t c).2.1 = GCMode.day ∨
      (caseHour now t c).2.1 = GCMode.week ∨ (caseHour now t c).2.1 = GCMode.month := by
  unfold caseHour
  cases hw : hourLoop now t (c + 1).toNat with
  | some r =>
    rcases hourLoop_mode now t _ r hw with h | h
    · left; exact h
    · right; left; exact h
  | none =>
    rcases caseDay_mode now t 6 with h | h | h
    · right; left; exact h
    · right; right; left; exact h
    · right; right; right; exact h

theorem gcStep_mode_forward (now t : Int) (mode : GCMode) (count : Int) :
    modeRank mode ≤ modeRank (gcStep now t mode count).2.1 := by
  cases mode with
  | current => exact Nat.zero_le _
  | hour =>
    show modeRank GCMode.hour ≤ modeRank (caseHour now t count).2.1
    rcases caseHour_mode now t count with h | h | h | h <;> simp [h, modeRank]
  | day =>
    show modeRank GCMode.day ≤ modeRank (caseDay now t count).2.1
    rcases caseDay_mode now t count with h | h | h <;> simp [h, modeRank]
  | week =>
    show modeRank GCMode.week ≤ modeRank (caseWeek now t count).2.1
    rcases caseWeek_mode now t count with h | h <;> simp [h, modeRank]
  | month => exact le_refl _

theorem gcStep_month_absorbing (now t : Int) (count : Int) :
    gcStep now t GCMode.month count = (true, GCMode.month, count) := rfl

theorem expGoAux_month_deletes (now : Int) (delOk : Snapshot → Bool)
    (l : List Snapshot) (idxs : List Nat) :
    ∀ (js : List Nat) (count : Int) (j : Nat), j ∈ js →
      (garbageCollectDeltaSnapshots delOk (streamAt l idxs j)).2 = true →
      headAt l idxs j ∈ (expGoAux now delOk l idxs js GCMode.month count).1 := by
  intro js
  induction js with
  | nil => intro count j hj; simp at hj
  | cons a js ih =>
    intro count j hj hswj
    cases hsw : (garbageCollectDeltaSnapshots delOk (streamAt l idxs a)).2 with
    | true =>
      rw [expGoAux_cons_ok now delOk l idxs a js GCMode.month count hsw,
        gcStep_month_absorbing]
      rcases List.mem_cons.mp hj with rfl | hj2
      · simp
      · simp only [List.mem_append]
        right
        exact ih count j hj2 hswj
    | false =>
      rw [expGoAux_cons_fail now delOk l idxs a js GCMode.month count hsw]
      rcases List.mem_cons.mp hj with rfl | hj2
      · rw [hswj] at hsw; cases hsw
      · simp only [List.mem_append]
        right
        exact ih count j hj2 hswj

/-! ## The partitioner's index list -/

theorem snapStreamIndexList_pairwise (l : List Snapshot) :
    (snapStreamIndexList l).Pairwise (· < ·) := by
  unfold snapStreamIndexList
  refine List.Pairwise.cons ?_ ?_
  · intro x hx
    have := (List.mem_filter.mp hx).2
    simp only [Bool.and_eq_true, decide_eq_true_eq] at this
    omega
  · exact (List.pairwise_lt_range l.length).filter _

theorem snapStreamIndexList_lt_length (l : List Snapshot) (h : l ≠ []) :
    ∀ x ∈ snapStreamIndexList l, x < l.length := by
  intro x hx
  unfold snapStreamIndexList at hx
  rcases List.mem_cons.mp hx with rfl | hx2
  · exact List.length_pos.mpr h
  · exact List.mem_range.mp (List.mem_filter.mp hx2).1

/-- The start index of the newest (latest) stream: the Go expression
`snapStreamIndexList[len(snapStreamIndexList)-1]`. -/
def latestStreamStart (l : List Snapshot) : Nat :=
  (snapStreamIndexList l).getD ((snapStreamIndexList l).length - 1) 0

theorem getD_lt_getD_of_pairwise (idxs : List Nat)
    (hp : idxs.Pairwise (· < ·)) (i j : Nat) (hij : i < j)
    (hj : j < idxs.length) :
    idxs.getD i 0 < idxs.getD j 0 := by
  have hi : i < idxs.length := lt_trans hij hj
  rw [List.getD_eq_getElem _ _ hi, List.getD_eq_getElem _ _ hj]
  exact List.pairwise_iff_getElem.mp hp i j hi hj hij

theorem getD_le_latest (idxs : List Nat) (hp : idxs.Pairwise (· < ·))
    (j : Nat) (hj : j < idxs.length) :
    idxs.getD j 0 ≤ idxs.getD (idxs.length - 1) 0 := by
  rcases Nat.lt_or_ge j (idxs.length - 1) with hlt | hge
  · exact le_of_lt (getD_lt_getD_of_pairwise idxs hp j (idxs.length - 1) hlt (by omega))
  · have : j = idxs.length - 1 := by omega
    rw [this]

theorem mem_take_of_mem_streamAt (l : List Snapshot) (idxs : List Nat)
    (j : Nat) (s : Snapshot) (hs : s ∈ streamAt l idxs j) :
    s ∈ l.take (idxs.getD (j + 1) 0) :=
  List.mem_of_mem_drop hs

theorem headAt_mem_take (l : List Snapshot) (idxs : List Nat) (j : Nat)
    (hlt : idxs.getD j 0 < idxs.getD (j + 1) 0)
    (hlen : idxs.getD (j + 1) 0 ≤ l.length) :
    headAt l idxs j ∈ l.take (idxs.getD (j + 1) 0) := by
  unfold headAt
  have hjl : idxs.getD j 0 < l.length := lt_of_lt_of_le hlt hlen
  rw [List.getD_eq_getElem _ _ hjl]
  have htl : idxs.getD j 0 < (l.take (idxs.getD (j + 1) 0)).length := by
    rw [List.length_take]
    omega
  have := List.getElem_take (L := l) (h := htl)
  rw [← this]
  exact List.getElem_mem _

theorem mem_take_mono (l : List Snapshot) (m n : Nat) (hmn : m ≤ n)
    (s : Snapshot) (hs : s ∈ l.take m) : s ∈ l.take n := by
  have : l.take m = (l.take n).take m := by
    rw [List.take_take, min_eq_left hmn]
  rw [this] at hs
  exact List.take_subset _ _ hs

theorem getD_mem_of_lt (idxs : List Nat) (j : Nat) (hj : j < idxs.length) :
    idxs.getD j 0 ∈ idxs := by
  rw [List.getD_eq_getElem _ _ hj]
  exact List.getElem_mem _

theorem lbGoAux_calls_in_take (delOk : Snapshot → Bool) (l : List Snapshot)
    (maxBackups : Int) (hne : l ≠ []) :
    ∀ js, (∀ j ∈ js, j + 1 < (snapStreamIndexList l).length) →
      ∀ s ∈ (lbGoAux delOk l (snapStreamIndexList l) maxBackups js).1,
        s ∈ l.take (latestStreamStart l) := by
  have hp := snapStreamIndexList_pairwise l
  have hlen := snapStreamIndexList_lt_length l hne
  intro js
  induction js with
  | nil => intro _ s hs; simp [lbGoAux] at hs
  | cons j js ih =>
    intro hjs s hs
    have hj1 : j + 1 < (snapStreamIndexList l).length := hjs j (List.mem_cons_self j js)
    have hjlt : (snapStreamIndexList l).getD j 0 < (snapStreamIndexList l).getD (j + 1) 0 :=
      getD_lt_getD_of_pairwise _ hp j (j + 1) (by omega) hj1
    have hjlen : (snapStreamIndexList l).getD (j + 1) 0 ≤ l.length :=
      le_of_lt (hlen _ (getD_mem_of_lt _ (j + 1) hj1))
    have hlast : (snapStreamIndexList l).getD (j + 1) 0 ≤ latestStreamStart l :=
      getD_le_latest _ hp (j + 1) hj1
    have hjs2 : ∀ a ∈ js, a + 1 < (snapStreamIndexList l).length := fun a ha =>
      hjs a (List.mem_cons_of_mem j ha)
    have hsweep : ∀ x ∈ (garbageCollectDeltaSnapshots delOk
        (streamAt l (snapStreamIndexList l) j)).1,
        x ∈ l.take (latestStreamStart l) := by
      intro x hx
      have hx2 : x ∈ streamAt l (snapStreamIndexList l) j := by
        have hcalls := sweepAux_spec delOk ((streamAt l (snapStreamIndexList l) j).drop 1).reverse
        unfold garbageCollectDeltaSnapshots at hx
        rw [hcalls] at hx
        rcases List.mem_append.mp hx with hx3 | hx3
        · have := (List.takeWhile_sublist _).mem hx3
          exact List.mem_of_mem_drop (List.mem_reverse.mp this)
        · have := ((List.take_sublist _ _).trans (List.dropWhile_sublist _)).mem hx3
          exact List.mem_of_mem_drop (List.mem_reverse.mp this)
      exact mem_take_mono l _ _ hlast x (mem_take_of_mem_streamAt l _ j x hx2)
    have hhead : headAt l (snapStreamIndexList l) j ∈ l.take (latestStreamStart l) :=
      mem_take_mono l _ _ hlast _ (headAt_mem_take l _ j hjlt hjlen)
    cases hsw : (garbageCollectDeltaSnapshots delOk (streamAt l (snapStreamIndexList l) j)).2 with
    | true =>
      rw [lbGoAux_cons_ok delOk l _ maxBackups j js hsw] at hs
      simp only [List.append_assoc, List.mem_append] at hs
      rcases hs with hs | hs | hs
      · exact hsweep s hs
      · rcases em ((j : Int) < ((snapStreamIndexList l).length : Int) - maxBackups) with hc | hc
        · simp [hc] at hs
          rw [hs]
          exact hhead
        · simp [hc] at hs
      · exact ih hjs2 s hs
    | false =>
      rw [lbGoAux_cons_fail delOk l _ maxBackups j js hsw] at hs
      rcases List.mem_append.mp hs with hs | hs
      · exact hsweep s hs
      · exact ih hjs2 s hs

/-! ## Limit-based characterisation -/

theorem lbGoAux_decisions_all_ok (delOk : Snapshot → Bool) (l : List Snapshot)
    (idxs : List Nat) (maxBackups : Int) (hall : ∀ s, delOk s = true) :
    ∀ js, (lbGoAux delOk l idxs maxBackups js).2 =
      js.map (fun j => (headAt l idxs j,
        decide ((j : Int) < (idxs.length : Int) - maxBackups))) := by
  intro js
  induction js with
  | nil => simp [lbGoAux]
  | cons j js ih =>
    rw [lbGoAux_cons_ok delOk l idxs maxBackups j js (sweep_ok_all delOk hall _),
      List.map_cons, ih]

theorem countP_range_ge (c n : Nat) :
    (List.range n).countP (fun j => decide (c ≤ j)) = n - min n c := by
  induction n with
  | zero => simp
  | succ n ih =>
    rw [List.range_succ, List.countP_append, ih]
    rcases Nat.lt_or_ge n c with h | h
    · have : (List.countP (fun j => decide (c ≤ j)) [n]) = 0 := by
        simp [List.countP_cons]
        omega
      rw [this]
      omega
    · have : (List.countP (fun j => decide (c ≤ j)) [n]) = 1 := by
        simp [List.countP_cons]
        omega
      rw [this]
      omega

/-! ## Per-stream block decomposition of the delete calls -/

/-- The `Delete` calls one loop iteration issues for stream `j` when the
head-delete decision is `b`: first the delta sweep of the stream, then —
only if the sweep succeeded and `b` holds — the stream's head full. -/
def gcBlock (delOk : Snapshot → Bool) (l : List Snapshot) (idxs : List Nat)
    (j : Nat) (b : Bool) : List Snapshot :=
  (garbageCollectDeltaSnapshots delOk (streamAt l idxs j)).1 ++
    (if (garbageCollectDeltaSnapshots delOk (streamAt l idxs j)).2 && b
      then [headAt l idxs j] else [])

theorem expGoAux_blocks (now : Int) (delOk : Snapshot → Bool)
    (l : List Snapshot) (idxs : List Nat) :
    ∀ (js : List Nat) (mode : GCMode) (count : Int), ∃ bs : List Bool,
      bs.length = js.length ∧
      (expGoAux now delOk l idxs js mode count).1 =
        (List.zipWith (gcBlock delOk l idxs) js bs).flatten := by
  intro js
  induction js with
  | nil => intro mode count; exact ⟨[], rfl, rfl⟩
  | cons j js ih =>
    intro mode count
    cases hsw : (garbageCollectDeltaSnapshots delOk (streamAt l idxs j)).2 with
    | true =>
      obtain ⟨bs, hlen, hcalls⟩ := ih
        (gcStep now (headAt l idxs j).createdOn mode count).2.1
        (gcStep now (headAt l idxs j).createdOn mode count).2.2
      refine ⟨(gcStep now (headAt l idxs j).createdOn mode count).1 :: bs, by simp [hlen], ?_⟩
      rw [expGoAux_cons_ok now delOk l idxs j js mode count hsw, hcalls,
        List.zipWith_cons_cons, List.flatten_cons]
      unfold gcBlock
      rw [hsw, Bool.true_and, List.append_assoc]
    | false =>
      obtain ⟨bs, hlen, hcalls⟩ := ih mode count
      refine ⟨false :: bs, by simp [hlen], ?_⟩
      rw [expGoAux_cons_fail now delOk l idxs j js mode count hsw, hcalls,
        List.zipWith_cons_cons, List.flatten_cons]
      unfold gcBlock
      rw [hsw, Bool.false_and, if_neg (by simp), List.append_nil]

theorem lbGoAux_blocks (delOk : Snapshot → Bool)
    (l : List Snapshot) (idxs : List Nat) (maxBackups : Int) :
    ∀ js : List Nat, ∃ bs : List Bool,
      bs.length = js.length ∧
      (lbGoAux delOk l idxs maxBackups js).1 =
        (List.zipWith (gcBlock delOk l idxs) js bs).flatten := by
  intro js
  induction js with
  | nil => exact ⟨[], rfl, rfl⟩
  | cons j js ih =>
    obtain ⟨bs, hlen, hcalls⟩ := ih
    cases hsw : (garbageCollectDeltaSnapshots delOk (streamAt l idxs j)).2 with
    | true =>
      refine ⟨decide ((j : Int) < (idxs.length : Int) - maxBackups) :: bs,
        by simp [hlen], ?_⟩
      rw [lbGoAux_cons_ok delOk l idxs maxBackups j js hsw, hcalls,
        List.zipWith_cons_cons, List.flatten_cons]
      unfold gcBlock
      rw [hsw, Bool.true_and, List.append_assoc]
    | false =>
      refine ⟨false :: bs, by simp [hlen], ?_⟩
      rw [lbGoAux_cons_fail delOk l idxs maxBackups j js hsw, hcalls,
        List.zipWith_cons_cons, List.flatten_cons]
      unfold gcBlock
      rw [hsw, Bool.false_and, if_neg (by simp), List.append_nil]

theorem sweep_calls_subset (delOk : Snapshot → Bool) (stream : List Snapshot) :
    ∀ s ∈ (garbageCollectDeltaSnapshots delOk stream).1, s ∈ stream.drop 1 := by
  intro s hs
  unfold garbageCollectDeltaSnapshots at hs
  rw [sweepAux_spec] at hs
  rcases List.mem_append.mp hs with hx | hx
  · exact List.mem_reverse.mp ((List.takeWhile_sublist _).mem hx)
  · exact List.mem_reverse.mp
      (((List.take_sublist _ _).trans (List.dropWhile_sublist _)).mem hx)

/-! ## Claims -/

/-- **C6**: the delta sweeper walks the stream's deltas from newest to
oldest (the reversed tail), issues deletes until the first failure — the
issued calls are the successful prefix plus at most the one failing call —
reports success iff every delta delete succeeded, and never issues a
delete for the stream head at index 0 (every call is an element of the
tail). Deltas deleted before a failure stay deleted: they appear among
the issued successful calls and nothing reinstates them. -/
theorem C6_delta_sweeper (delOk : Snapshot → Bool) (stream : List Snapshot) :
    garbageCollectDeltaSnapshots delOk stream =
      ((stream.drop 1).reverse.takeWhile delOk ++
        ((stream.drop 1).reverse.dropWhile delOk).take 1,
       (stream.drop 1).all delOk) ∧
    ∀ s ∈ (garbageCollectDeltaSnapshots delOk stream).1, s ∈ stream.drop 1 := by
  constructor
  · unfold garbageCollectDeltaSnapshots
    rw [sweepAux_spec, List.all_reverse]
  · exact sweep_calls_subset delOk stream

/-- **C7 (counterexample)**: on the empty snapshot list the stream
partitioner does *not* yield an empty stream-start sequence: the Go code
appends index `0` unconditionally before scanning, so the result is
`[0]`. -/
theorem C7_counterexample :
    snapStreamIndexList [] = [0] ∧ snapStreamIndexList ([] : List Snapshot) ≠ [] := by
  constructor
  · rfl
  · decide

/-- **C7 (amended)**: on the empty snapshot list the partitioner yields
the singleton `[0]` (a dangling start index, not an empty sequence), and
the engine nevertheless issues no delete calls in that tick under either
policy. -/
theorem C7_amended_empty_list :
    snapStreamIndexList ([] : List Snapshot) = [0] ∧
    (∀ (now : Int) (delOk : Snapshot → Bool),
      (gcExponentialTick now delOk []).1 = []) ∧
    (∀ (delOk : Snapshot → Bool) (maxBackups : Int),
      (gcLimitBasedTick delOk maxBackups []).1 = []) :=
  ⟨rfl, fun _ _ => rfl, fun _ _ => rfl⟩

/-- **C8**: when `store.List()` fails, the tick issues zero `Delete`
calls and logs exactly one warning; the rest of the tick body (the
partitioner and the policy switch) is skipped. -/
theorem C8_list_error_skips_tick (policy : GCPolicy) (now maxBackups : Int)
    (delOk : Snapshot → Bool) :
    gcTick policy now maxBackups delOk none = ([], 1) := rfl

/-- **C5**: under either policy the tick's delete calls decompose into
consecutive per-stream blocks, each block being the stream's delta-sweep
calls followed by the stream's head full delete — the head appearing only
when the delta sweep of that same stream succeeded (see `gcBlock`); a
stream whose sweep failed contributes its partial sweep calls and no head
delete, and the walk continues with the next stream.  The sweep succeeds
exactly when every delta of the stream was deleted successfully. -/
theorem C5_head_gated_on_sweep (now : Int) (delOk : Snapshot → Bool)
    (maxBackups : Int) (l : List Snapshot) :
    (∃ bs : List Bool,
      bs.length = ((List.range ((snapStreamIndexList l).length - 1)).reverse).length ∧
      (gcExponentialTick now delOk l).1 =
        (List.zipWith (gcBlock delOk l (snapStreamIndexList l))
          ((List.range ((snapStreamIndexList l).length - 1)).reverse) bs).flatten) ∧
    (∃ bs : List Bool,
      bs.length = (List.range ((snapStreamIndexList l).length - 1)).length ∧
      (gcLimitBasedTick delOk maxBackups l).1 =
        (List.zipWith (gcBlock delOk l (snapStreamIndexList l))
          (List.range ((snapStreamIndexList l).length - 1)) bs).flatten) ∧
    (∀ stream : List Snapshot,
      (garbageCollectDeltaSnapshots delOk stream).2 = (stream.drop 1).all delOk) := by
  refine ⟨?_, ?_, ?_⟩
  · exact expGoAux_blocks now delOk l (snapStreamIndexList l) _ GCMode.current (-1)
  · exact lbGoAux_blocks delOk l (snapStreamIndexList l) maxBackups _
  · intro stream
    unfold garbageCollectDeltaSnapshots
    rw [sweepAux_spec, List.all_reverse]

/-- **C3 (counterexample)**: the surviving head fulls excluding the
latest stream are *not* bounded by 35.  With `now = 8641800`
(00:30 on day 100) and 37 full snapshots taken in the current hour
(seconds 0..36 of that hour), the exponential tick issues no deletes —
the `"None"`/Current mode keeps everything in the current hour — so all
36 non-latest stream heads survive, exceeding 24 + 7 + 4 = 35. -/
theorem C3_counterexample :
    (gcExponentialTick 8641800 (fun _ => true)
      ((List.range 37).map fun (k : Nat) => ⟨SnapKind.full, 8640000 + Int.ofNat k, k⟩)).1 = [] ∧
    ((gcExponentialTick 8641800 (fun _ => true)
      ((List.range 37).map fun (k : Nat) => ⟨SnapKind.full, 8640000 + Int.ofNat k, k⟩)).2.filter
        (fun p => !p.2)).length = 36 ∧
    35 < 36 := by
  refine ⟨by decide, by decide, by decide⟩

/-- **C3 (amended)**: after one exponential tick in which every delete
succeeds, at most 35 (= 24 + 7 + 4) of the walked (non-latest) stream
heads are kept *outside the current hour*: every keep decision outside
Current mode consumes one of the 24 hour, 7 day or 4 week bucket slots
and the slots only ever decrease.  (Heads in the same truncated hour as
`now` are all kept, so the overall survivor count is unbounded; the
original claim's `≤ 35` fails — see the counterexample.) -/
theorem C3_amended_bounded_survivors (now : Int) (l : List Snapshot) :
    ((gcExponentialTick now (fun _ => true) l).2.filter
      (fun p => !p.2 && !(truncHour p.1.createdOn == truncHour now))).length ≤ 35 :=
  expGoAux_keep_bound now (fun _ => true) l (snapStreamIndexList l)
    (fun _ => rfl) _ GCMode.current (-1)

/-- **C4**: with every delete succeeding and `maxBackups ≥ 1`, one
limit-based tick reaches a head decision for every stream except the
latest, in oldest-first (ascending index) order, deleting exactly the
heads of streams `j` with `j < total_streams - maxBackups` and retaining
the rest; consequently the number of retained heads (the kept decisions
plus the never-visited latest stream head) is
`min total_streams maxBackups`. -/
theorem C4_limit_based_exact (delOk : Snapshot → Bool) (maxBackups : Int)
    (l : List Snapshot) (hall : ∀ s, delOk s = true) (hm : 1 ≤ maxBackups) :
    (gcLimitBasedTick delOk maxBackups l).2 =
      (List.range ((snapStreamIndexList l).length - 1)).map
        (fun j => (headAt l (snapStreamIndexList l) j,
          decide ((j : Int) < ((snapStreamIndexList l).length : Int) - maxBackups))) ∧
    ((gcLimitBasedTick delOk maxBackups l).2.filter (fun p => !p.2)).length + 1 =
      min (snapStreamIndexList l).length maxBackups.toNat := by
  have hdec := lbGoAux_decisions_all_ok delOk l (snapStreamIndexList l) maxBackups hall
    (List.range ((snapStreamIndexList l).length - 1))
  have hL : 1 ≤ (snapStreamIndexList l).length := by
    unfold snapStreamIndexList
    simp
  refine ⟨hdec, ?_⟩
  rw [show (gcLimitBasedTick delOk maxBackups l).2 =
    (lbGoAux delOk l (snapStreamIndexList l) maxBackups
      (List.range ((snapStreamIndexList l).length - 1))).2 from rfl, hdec]
  rw [← List.countP_eq_length_filter, List.countP_map]
  have hcong : (List.range ((snapStreamIndexList l).length - 1)).countP
      ((fun p : Snapshot × Bool => !p.2) ∘ (fun j => (headAt l (snapStreamIndexList l) j,
        decide ((j : Int) < ((snapStreamIndexList l).length : Int) - maxBackups)))) =
      (List.range ((snapStreamIndexList l).length - 1)).countP
        (fun j => decide ((((snapStreamIndexList l).length : Int) - maxBackups).toNat ≤ j)) := by
    apply List.countP_congr
    intro j hj
    simp only [Function.comp_apply, Bool.not_eq_true', decide_eq_false_iff_not,
      decide_eq_true_eq]
    omega
  rw [hcong, countP_range_ge]
  omega

/-- **C9**: for every integer `maxBackups` — zero and negative values
included — a limit-based tick never issues a delete for the latest
stream's head full or for any of its deltas: the loop runs only over
stream indices strictly below the last one, so every issued call
addresses a list position before `latestStreamStart`. -/
theorem C9_latest_stream_untouched (maxBackups : Int) (delOk : Snapshot → Bool)
    (l : List Snapshot) (hnd : l.Nodup) :
    ∀ s ∈ l.drop (latestStreamStart l), s ∉ (gcLimitBasedTick delOk maxBackups l).1 := by
  intro s hs hmem
  by_cases hne : l = []
  · subst hne
    simp at hs
  · have hmem2 : s ∈ (lbGoAux delOk l (snapStreamIndexList l) maxBackups
        (List.range ((snapStreamIndexList l).length - 1))).1 := hmem
    have htake := lbGoAux_calls_in_take delOk l maxBackups hne
      (List.range ((snapStreamIndexList l).length - 1))
      (fun j hj => by
        have := List.mem_range.mp hj
        omega) s hmem2
    have hsplit := List.take_append_drop (latestStreamStart l) l
    have hnd2 : (l.take (latestStreamStart l) ++ l.drop (latestStreamStart l)).Nodup := by
      rw [hsplit]; exact hnd
    exact List.disjoint_of_nodup_append hnd2 htake hs

/-- **C10**: within one exponential tick the mode variable only moves
forward through the order None(Current) < Hour < Day < Week < Month
(every step's output mode has rank at least the input mode's), the Month
state is absorbing with an unconditional delete decision, and once the
walk is in Month state every remaining stream head whose delta sweep
succeeds has its delete issued. -/
theorem C10_mode_forward_month_absorbing :
    (∀ (now t : Int) (mode : GCMode) (count : Int),
      modeRank mode ≤ modeRank (gcStep now t mode count).2.1) ∧
    (∀ (now t count : Int),
      gcStep now t GCMode.month count = (true, GCMode.month, count)) ∧
    (∀ (now : Int) (delOk : Snapshot → Bool) (l : List Snapshot)
      (idxs : List Nat) (js : List Nat) (count : Int) (j : Nat), j ∈ js →
      (garbageCollectDeltaSnapshots delOk (streamAt l idxs j)).2 = true →
      headAt l idxs j ∈ (expGoAux now delOk l idxs js GCMode.month count).1) :=
  ⟨fun now t mode count => gcStep_mode_forward now t mode count,
   fun _ _ _ => rfl,
   fun now delOk l idxs js count j hj hsw =>
    expGoAux_month_deletes now delOk l idxs js count j hj hsw⟩

/-- **C1 (counterexample)**: the retained head in a claimed bucket is
*not* the earliest one.  First input (`now` = 10:30 on day 100): the
hour-9 bucket holds the heads created 09:10 (earliest) and 09:50; the
tick deletes 09:10 and keeps 09:50, the newest.  Second input (`now` =
12:00 on day 1000): the two heads 20 days and 400 hours before `now`
both lie in the single 7-day Week span from 21 to 14 days before `now`,
yet the tick deletes nothing — with the code's truncating week
arithmetic even "one head per Week bucket" fails. -/
theorem C1_counterexample :
    (truncHour (8673000 : Int) = truncHour (8675400 : Int) ∧
     (8673000 : Int) < 8675400 ∧
     (gcExponentialTick 8677800 (fun _ => true)
       [⟨SnapKind.full, 8673000, 1⟩, ⟨SnapKind.full, 8675400, 2⟩,
        ⟨SnapKind.full, 8676000, 3⟩]).1 = [⟨SnapKind.full, 8673000, 1⟩]) ∧
    ((86400000 : Int) - 21 * 86400 ≤ 84672000 ∧ (84672000 : Int) < 84960000 ∧
     (84960000 : Int) < 86400000 - 14 * 86400 ∧
     (gcExponentialTick 86443200 (fun _ => true)
       [⟨SnapKind.full, 84672000, 1⟩, ⟨SnapKind.full, 84960000, 2⟩,
        ⟨SnapKind.full, 86439600, 3⟩]).1 = []) :=
  ⟨⟨by decide, by decide, by decide⟩, by decide, by decide, by decide, by decide⟩

/-- **C1 (amended)**: within an Hour or Day bucket the retained head full
is the *newest* in the bucket — the first one the newest-to-oldest walk
meets.  From Hour (resp. Day) state with `c ≤ count` remaining buckets, a
head whose truncated hour (resp. day) equals bucket `c`'s anchor is kept,
and a subsequent older head falling in the same bucket is deleted.  (For
Week buckets even uniqueness fails, see the counterexample's second
input.) -/
theorem C1_amended_newest_in_bucket (now t t' : Int) (c cc : Nat) (hcc : c ≤ cc) :
    (truncHour t = truncDay now + (c : Int) * 3600 →
      truncHour t' = truncDay now + (c : Int) * 3600 →
      (gcStep now t GCMode.hour (cc : Int)).1 = false ∧
      (gcStep now t' (gcStep now t GCMode.hour (cc : Int)).2.1
        (gcStep now t GCMode.hour (cc : Int)).2.2).1 = true) ∧
    (truncDay t = truncDay now + ((c : Int) - 7) * 86400 →
      truncDay t' = truncDay now + ((c : Int) - 7) * 86400 →
      (gcStep now t GCMode.day (cc : Int)).1 = false ∧
      (gcStep now t' (gcStep now t GCMode.day (cc : Int)).2.1
        (gcStep now t GCMode.day (cc : Int)).2.2).1 = true) := by
  constructor
  · intro h h'
    rw [gcStep_hour_keep now t c cc hcc h]
    by_cases hc : c = 0
    · subst hc
      rw [if_pos rfl]
      refine ⟨rfl, ?_⟩
      have h0 : truncHour t' = truncDay now := by rw [h']; norm_num
      show (gcStep now t' GCMode.day 6).1 = true
      rw [gcStep_hour_bucket_zero_claimed now t' h0]
    · rw [if_neg hc]
      refine ⟨rfl, ?_⟩
      show (gcStep now t' GCMode.hour ((c : Int) - 1)).1 = true
      rw [gcStep_hour_bucket_claimed now t' c (by omega) h']
  · intro h h'
    rw [gcStep_day_keep now t c cc hcc h]
    by_cases hc : c = 0
    · subst hc
      rw [if_pos rfl]
      refine ⟨rfl, ?_⟩
      have h0 : truncDay t' = truncDay now - 7 * 86400 := by rw [h']; ring
      show (gcStep now t' GCMode.week 3).1 = true
      rw [gcStep_day_bucket_zero_claimed now t' h0]
    · rw [if_neg hc]
      refine ⟨rfl, ?_⟩
      show (gcStep now t' GCMode.day ((c : Int) - 1)).1 = true
      rw [gcStep_day_bucket_claimed now t' c (by omega) h']

/-- Witness for `C1_amended_newest_in_bucket`: at `now` = 10:30 on day
100, the head created 09:50 matches hour bucket 9 and is kept from Hour
state with 23 remaining buckets, after which the older 09:10 head in the
same bucket is deleted. -/
theorem C1_amended_newest_in_bucket_witness :
    (9 : Nat) ≤ 23 ∧
    ((gcStep 8677800 8675400 GCMode.hour ((23 : Nat) : Int)).1 = false ∧
     (gcStep 8677800 8673000 (gcStep 8677800 8675400 GCMode.hour ((23 : Nat) : Int)).2.1
       (gcStep 8677800 8675400 GCMode.hour ((23 : Nat) : Int)).2.2).1 = true) :=
  ⟨by decide, (C1_amended_newest_in_bucket 8677800 8675400 8673000 9 23 (by decide)).1
    (by decide) (by decide)⟩

/-- **C2 (counterexample)**: Hour mode does *not* cover the 24 most
recent hours.  With `now` = 02:30 on day 100, the hour bucket
22:00–23:00 of day 99 lies within the last 24 hours and contains exactly
one non-latest head (created 22:30 on day 99), yet the tick deletes that
head: hour anchors only range over day 100, so day-99 heads are resolved
by Day mode, which keeps only one head for the whole of day 99 (the
23:30 one). -/
theorem C2_counterexample :
    truncHour (8634600 : Int) = 8632800 ∧
    (8649000 : Int) - 24 * 3600 ≤ 8632800 ∧
    truncHour (8638200 : Int) ≠ 8632800 ∧
    truncHour (8647200 : Int) ≠ 8632800 ∧
    (gcExponentialTick 8649000 (fun _ => true)
      [⟨SnapKind.full, 8634600, 1⟩, ⟨SnapKind.full, 8638200, 2⟩,
       ⟨SnapKind.full, 8647200, 3⟩]).1 = [⟨SnapKind.full, 8634600, 1⟩] :=
  ⟨by decide, by decide, by decide, by decide, by decide⟩

/-- **C2 (amended)**: Hour mode's candidate anchors are the hour
boundaries *within `now`'s date* counting down from hour 23 — not the 24
most recent hours.  A head matching a today-anchored hour bucket `c` (for
any remaining `c ≤ count`) is kept; a head from an earlier date always
exhausts the hour anchors and falls through to Day mode with a fresh
bucket count of 6. -/
theorem C2_amended_hour_anchors_today (now t : Int) (c cc : Nat) (hcc : c ≤ cc) :
    (truncHour t = truncDay now + (c : Int) * 3600 →
      (gcStep now t GCMode.hour (cc : Int)).1 = false) ∧
    (truncDay t < truncDay now →
      gcStep now t GCMode.hour (cc : Int) = caseDay now t 6) := by
  constructor
  · intro h
    rw [gcStep_hour_keep now t c cc hcc h]
    by_cases hc : c = 0 <;> simp [hc]
  · intro h
    exact gcStep_hour_prev_date now t _ h

/-- Witness for `C2_amended_hour_anchors_today`: the 09:50 head of day
100 is kept in its hour bucket, and a day-99 head at `now` = 02:30 on
day 100 falls through from Hour to Day mode. -/
theorem C2_amended_hour_anchors_today_witness :
    ((9 : Nat) ≤ 23 ∧ (gcStep 8677800 8675400 GCMode.hour ((23 : Nat) : Int)).1 = false) ∧
    (truncDay (8638200 : Int) < truncDay (8649000 : Int) ∧
     gcStep 8649000 8638200 GCMode.hour ((23 : Nat) : Int) = caseDay 8649000 8638200 6) :=
  ⟨⟨by decide, (C2_amended_hour_anchors_today 8677800 8675400 9 23 (by decide)).1 (by decide)⟩,
   ⟨by decide, (C2_amended_hour_anchors_today 8649000 8638200 0 23 (by decide)).2 (by decide)⟩⟩

/-- Witness for `C4_limit_based_exact`: five full snapshots (hours 5–9 of
day 100) under `maxBackups = 3` retain `min 5 3 = 3` heads. -/
theorem C4_limit_based_exact_witness :
    (∀ s : Snapshot, (fun _ => true : Snapshot → Bool) s = true) ∧ (1 : Int) ≤ 3 ∧
    ((gcLimitBasedTick (fun _ => true) 3
      [⟨SnapKind.full, 8658000, 1⟩, ⟨SnapKind.full, 8661600, 2⟩,
       ⟨SnapKind.full, 8665200, 3⟩, ⟨SnapKind.full, 8668800, 4⟩,
       ⟨SnapKind.full, 8672400, 5⟩]).2.filter (fun p => !p.2)).length + 1 =
      min (snapStreamIndexList
        [⟨SnapKind.full, 8658000, 1⟩, ⟨SnapKind.full, 8661600, 2⟩,
         ⟨SnapKind.full, 8665200, 3⟩, ⟨SnapKind.full, 8668800, 4⟩,
         ⟨SnapKind.full, 8672400, 5⟩]).length (3 : Int).toNat :=
  ⟨fun _ => rfl, by decide,
   (C4_limit_based_exact (fun _ => true) 3
     [⟨SnapKind.full, 8658000, 1⟩, ⟨SnapKind.full, 8661600, 2⟩,
      ⟨SnapKind.full, 8665200, 3⟩, ⟨SnapKind.full, 8668800, 4⟩,
      ⟨SnapKind.full, 8672400, 5⟩] (fun _ => rfl) (by decide)).2⟩

/-- Witness for `C9_latest_stream_untouched`: with two full snapshots and
`maxBackups = 0` (outside the spec's positive-integer precondition) the
latest stream's head is still never deleted. -/
theorem C9_latest_stream_untouched_witness :
    ([⟨SnapKind.full, 8658000, 1⟩, ⟨SnapKind.full, 8661600, 2⟩] : List Snapshot).Nodup ∧
    (⟨SnapKind.full, 8661600, 2⟩ : Snapshot) ∈
      ([⟨SnapKind.full, 8658000, 1⟩, ⟨SnapKind.full, 8661600, 2⟩] : List Snapshot).drop
        (latestStreamStart [⟨SnapKind.full, 8658000, 1⟩, ⟨SnapKind.full, 8661600, 2⟩]) ∧
    (⟨SnapKind.full, 8661600, 2⟩ : Snapshot) ∉
      (gcLimitBasedTick (fun _ => true) 0
        [⟨SnapKind.full, 8658000, 1⟩, ⟨SnapKind.full, 8661600, 2⟩]).1 :=
  ⟨by decide, by decide,
   C9_latest_stream_untouched 0 (fun _ => true)
     [⟨SnapKind.full, 8658000, 1⟩, ⟨SnapKind.full, 8661600, 2⟩] (by decide)
     ⟨SnapKind.full, 8661600, 2⟩ (by decide)⟩

/-- Witness for `C10_mode_forward_month_absorbing`: in Month state the
head of a stream whose delta sweep (trivially) succeeds is deleted. -/
theorem C10_mode_forward_month_absorbing_witness :
    (0 ∈ ([0] : List Nat)) ∧
    (garbageCollectDeltaSnapshots (fun _ => true)
      (streamAt [⟨SnapKind.full, 8658000, 1⟩, ⟨SnapKind.full, 8661600, 2⟩] [0, 1] 0)).2 = true ∧
    headAt [⟨SnapKind.full, 8658000, 1⟩, ⟨SnapKind.full, 8661600, 2⟩] [0, 1] 0 ∈
      (expGoAux 8677800 (fun _ => true)
        [⟨SnapKind.full, 8658000, 1⟩, ⟨SnapKind.full, 8661600, 2⟩] [0, 1] [0]
        GCMode.month (-1)).1 :=
  ⟨by decide, by decide,
   C10_mode_forward_month_absorbing.2.2 8677800 (fun _ => true)
     [⟨SnapKind.full, 8658000, 1⟩, ⟨SnapKind.full, 8661600, 2⟩] [0, 1] [0] (-1) 0
     (by decide) (by decide)⟩
